import Mathlib

/-!
Verification of the QC scheduling and verification engine of
`auto_process_ngs` (`RunQC` / `ProjectQC` in `qc/runqc.py`, the Fastq-set
helpers in `qc/reporting.py`, and the job scheduler they drive).

The Python source is shallowly embedded: jobs and their captured logs are
explicit data, callback effects are state transformers on an explicit
`ProjState`, and the scheduler is a labelled transition system.  External
collaborator behaviour (the `reportqc` tool, the QC command provider, the
Fastq name parser) is abstracted as function parameters, exactly at the
boundaries the source treats them as opaque.
-/

/-- Python whitespace characters recognised by `str.rstrip()`. -/
def pyIsSpace (c : Char) : Bool :=
  c = ' ' || c = '\t' || c = '\n' || c = '\x0d' || c = '\x0b' || c = '\x0c'

/-- Embedding of Python `str.rstrip()`: drop trailing whitespace. -/
def rstrip (s : String) : String :=
  ⟨(s.data.reverse.dropWhile pyIsSpace).reverse⟩

/-- The pair of instance attributes written by `ProjectQC._extract_fastqs`
(`qc/runqc.py`): the verification counter and the accumulated Fastq paths. -/
structure VerifyResult where
  verification_status : Int
  fastqs_missing_qc : List String
deriving DecidableEq, Repr

/-- The `for line in log` loop of `ProjectQC._extract_fastqs`
(`qc/runqc.py` lines 283-287): a line starting with the project directory
is appended (rstripped) to `fastqs_missing_qc` and bumps the counter;
any other line is ignored. -/
def extractLoop (dirn : String) : List String → VerifyResult → VerifyResult
  | [], st => st
  | line :: rest, st =>
      if line.startsWith dirn then
        extractLoop dirn rest
          { verification_status := st.verification_status + 1,
            fastqs_missing_qc := st.fastqs_missing_qc ++ [rstrip line] }
      else
        extractLoop dirn rest st

/-- Embedding of `ProjectQC._extract_fastqs` (`qc/runqc.py` lines 263-290):
seed `verification_status` from the job's exit code, start with an empty
missing list, then run the line loop over the job's captured log. -/
def extractFastqs (dirn : String) (exit_code : Int) (log : List String) :
    VerifyResult :=
  extractLoop dirn log { verification_status := exit_code, fastqs_missing_qc := [] }

/-- The mutable verification/reporting state of a `ProjectQC` instance
(`qc/runqc.py` lines 204-208): all three attributes start as `None`. -/
structure ProjState where
  verification_status : Option Int
  fastqs_missing_qc : Option (List String)
  reporting_status : Option Int
deriving DecidableEq, Repr

/-- Initial `ProjectQC` state set up by `__init__`. -/
def initProjState : ProjState :=
  { verification_status := none, fastqs_missing_qc := none,
    reporting_status := none }

/-- The reset performed by `ProjectQC.check_qc` (`qc/runqc.py` lines 246-247)
before the verification job is submitted: both verification attributes go
back to `None`. -/
def checkQcReset (st : ProjState) : ProjState :=
  { st with verification_status := none, fastqs_missing_qc := none }

/-- Effect of the `_extract_fastqs` completion callback on the project
state: overwrite both verification attributes with the parsed result. -/
def applyExtract (dirn : String) (exit_code : Int) (log : List String)
    (st : ProjState) : ProjState :=
  let r := extractFastqs dirn exit_code log
  { st with verification_status := some r.verification_status,
            fastqs_missing_qc := some r.fastqs_missing_qc }

/-- Net effect on the project state of `check_qc` followed by the
scheduler running the verification job to completion (reset, then the
`_extract_fastqs` callback). -/
def applyCheckQC (dirn : String) (exit_code : Int) (log : List String)
    (st : ProjState) : ProjState :=
  applyExtract dirn exit_code log (checkQcReset st)

/-- Embedding of `ProjectQC.verify` (`qc/runqc.py` line 453):
`self.verification_status == 0`; in Python `None == 0` is `False`, so an
unset status yields `false`. -/
def ProjState.verify (st : ProjState) : Bool :=
  match st.verification_status with
  | some c => c == 0
  | none => false

/-- Environment of one registered project during `RunQC.run`: its
directory, the outcome (exit code, captured log) of the phase-1
verification job, whether `get_samples(sample_pattern)` is non-empty,
the outcome of the re-verification job issued by `setup_qc`, and the
exit code of the reporting job.  These are the external inputs the
orchestration consumes. -/
structure ProjectEnv where
  name : String
  dirn : String
  preVerifyExit : Int
  preVerifyLog : List String
  hasSamples : Bool
  reVerifyExit : Int
  reVerifyLog : List String
  reportExit : Int
deriving DecidableEq, Repr

/-- The three sequential phases of `RunQC.run` (`qc/runqc.py` lines
101-160) as they act on ONE project's state, paired with whether the
project ends up in `failed_projects`:
phase 1 runs `check_qc`; phase 2 runs `setup_qc` for unverified projects
(whose trailing `check_qc` re-runs verification — unless `get_samples`
matched nothing, in which case `setup_qc` returns early and submits no
verification job); phase 3 adds still-unverified projects to the failed
list and reports the rest; finally a project whose `reporting_status`
is not 0 is also added to the failed list. -/
def runProjectPhase1 (env : ProjectEnv) : ProjState :=
  applyCheckQC env.dirn env.preVerifyExit env.preVerifyLog initProjState

/-- State of one project after phase 2 of `RunQC.run`: `setup_qc` runs
only for unverified projects, and its trailing `check_qc` re-runs
verification only when at least one sample matched. -/
def runProjectPhase2 (env : ProjectEnv) : ProjState :=
  let st1 := runProjectPhase1 env
  if st1.verify then st1
  else if env.hasSamples then
    applyCheckQC env.dirn env.reVerifyExit env.reVerifyLog st1
  else st1

/-- Phase 3 plus the final reporting check for one project: a project
failing verification goes on the failed list unreported; otherwise its
report job runs and a non-zero `reporting_status` also marks it
failed. -/
def runProject (env : ProjectEnv) : ProjState × Bool :=
  let st2 := runProjectPhase2 env
  if st2.verify then
    ({ st2 with reporting_status := some env.reportExit }, env.reportExit != 0)
  else
    (st2, true)

/-- Embedding of the return value of `RunQC.run` (`qc/runqc.py` lines
152-160): 1 if `failed_projects` is non-empty, 0 otherwise.  Each
project is processed independently (the source loops touch only the
current project's state), so the failed list is the list of per-project
failure flags. -/
def RunQC_run (projects : List ProjectEnv) : Int :=
  if (projects.map runProject).any (fun r => r.2) then 1 else 0

/-- The per-Fastq test of the pair-selection loop in `ProjectQC.setup_qc`
(`qc/runqc.py` lines 329-339): walk the Fastqs of the pair; the first one
found in `fastqs_missing_qc` selects the pair (`break`); a Fastq not in
the list is skipped (`continue`). -/
def pairHasMissingQC (missing : List String) : List String → Bool
  | [] => false
  | fq :: rest =>
      if missing.contains fq then true else pairHasMissingQC missing rest

/-- The `pairs` list built by `ProjectQC.setup_qc` (`qc/runqc.py` lines
325-339): the sample's Fastq pairs that contain at least one Fastq with
missing QC, kept in iteration order. -/
def selectPairs (missing : List String) : List (List String) → List (List String)
  | [] => []
  | p :: rest =>
      if pairHasMissingQC missing p then p :: selectPairs missing rest
      else selectPairs missing rest

/-- `"%03d" % n`: zero-pad to three digits (wider numbers print as is). -/
def pad3 (n : Nat) : String :=
  if n < 10 then "00" ++ toString n
  else if n < 100 then "0" ++ toString n
  else toString n

/-- A scheduler job group as created by `sched.group(...)` in
`ProjectQC.setup_qc`: its name, the labels of the jobs added via
`group.add`, and whether `group.close()` has been called. -/
structure JobGroup where
  name : String
  jobs : List String
  closed : Bool
deriving DecidableEq, Repr

/-- The job label `"%s.%s.%s#%03d" % (command_name, project, sample, indx)`
built in `ProjectQC.setup_qc` (`qc/runqc.py` lines 359-362).  The command
name (`os.path.splitext(os.path.basename(cmd.command))[0]`) is taken as
the string the abstract QC command provider yields. -/
def jobLabel (commandName projectName sampleName : String) (indx : Nat) : String :=
  commandName ++ "." ++ projectName ++ "." ++ sampleName ++ "#" ++ pad3 indx

/-- Inner loop of `ProjectQC.setup_qc` over the commands of one selected
pair (`qc/runqc.py` lines 355-367): bump `indx` and add one labelled job
to the sample's group per command. -/
def addPairJobs (projectName sampleName : String) (cmds : List String)
    (acc : Nat × JobGroup) : Nat × JobGroup :=
  cmds.foldl
    (fun acc2 cmd =>
      let indx := acc2.1 + 1
      (indx,
        { acc2.2 with
            jobs := acc2.2.jobs ++
              [jobLabel cmd projectName sampleName indx] }))
    acc

/-- Per-sample body of `ProjectQC.setup_qc` (`qc/runqc.py` lines 321-371):
select the pairs with missing QC, lazily create the group
`"<project>.<sample>"` on the first selected pair, add every command of
every selected pair as a job, and close the group at the end; a sample
with no selected pair never creates a group. -/
def setupSampleStep (projectName sampleName : String)
    (commands : List String → List String)
    (acc : Nat × Option JobGroup) (pair : List String) :
    Nat × Option JobGroup :=
  let group :=
    match acc.2 with
    | none => { name := projectName ++ "." ++ sampleName,
                jobs := [], closed := false }
    | some g => g
  let r := addPairJobs projectName sampleName (commands pair) (acc.1, group)
  (r.1, some r.2)

/-- Per-sample body of `ProjectQC.setup_qc` (continued): run the lazy
group-building loop over the selected pairs, then close the group if one
was created. -/
def setupSample (projectName : String) (commands : List String → List String)
    (missing : List String) (sampleName : String)
    (samplePairs : List (List String)) : Option JobGroup :=
  let pairs := selectPairs missing samplePairs
  let final := pairs.foldl (setupSampleStep projectName sampleName commands)
    ((0 : Nat), (none : Option JobGroup))
  match final.2 with
  | some g => some { g with closed := true }
  | none => none

/-- One analysis sample as `setup_qc` sees it: its name and its Fastq
pairs (each pair the list of member Fastq paths). -/
structure Sample where
  name : String
  fastqPairs : List (List String)
deriving DecidableEq, Repr

/-- The re-verification submission issued at the end of
`ProjectQC.setup_qc` via `check_qc(sched, "verify_qc", wait_for=groups)`:
the job's name and its dependency list. -/
structure CheckQCJob where
  name : String
  wait_for : List String
deriving DecidableEq, Repr

/-- What `ProjectQC.setup_qc` submits to the scheduler: the per-sample
job groups (names recorded in creation order) and the optional trailing
re-verification job. -/
structure SetupQCResult where
  groups : List JobGroup
  verifyJob : Option CheckQCJob
deriving DecidableEq, Repr

/-- Embedding of `ProjectQC.setup_qc` (`qc/runqc.py` lines 292-376): if no
sample matches the pattern the method returns early with nothing
submitted; otherwise each sample contributes at most one closed group,
and a final `check_qc` job named `"verify_qc.<project>"` is submitted
with `wait_for` the list of created group names. -/
def setup_qc (projectName : String) (commands : List String → List String)
    (missing : List String) (samples : List Sample) : SetupQCResult :=
  if samples.isEmpty then { groups := [], verifyJob := none }
  else
    let groups := samples.foldl
      (fun acc s =>
        match setupSample projectName commands missing s.name s.fastqPairs with
        | some g => acc ++ [g]
        | none => acc)
      ([] : List JobGroup)
    { groups := groups,
      verifyJob := some { name := "verify_qc." ++ projectName,
                          wait_for := groups.map (fun g => g.name) } }

/-- A set of Fastq files as built by `FastqSet.__init__`
(`qc/reporting.py` lines 323-332): `_fastqs = [fqr1, fqr2]` with `fqr2`
possibly `None` when the set is a single Fastq. -/
structure FastqSet where
  r1 : String
  r2 : Option String
deriving DecidableEq, Repr

/-- The underlying `_fastqs` list of a `FastqSet`. -/
def FastqSet.members (fs : FastqSet) : List (Option String) :=
  [some fs.r1, fs.r2]

/-- The `fastqs` property of `FastqSet` (`qc/reporting.py` lines 350-356):
the members with the `None` entries filtered out. -/
def FastqSet.fastqs (fs : FastqSet) : List String :=
  fs.members.filterMap id

/-- Loop body of `FastqSet.verify` (`qc/reporting.py` lines 380-386):
skip `None` members; return `False` on the first member with missing QC
outputs; `True` if none is missing.  `missingOutputs fq = true` stands
for `illumina_qc.check_outputs(fq, qc_dir)` reporting a non-empty
missing list (the check itself is an external collaborator). -/
def verifyLoop (missingOutputs : String → Bool) :
    List (Option String) → Bool
  | [] => true
  | none :: rest => verifyLoop missingOutputs rest
  | some fq :: rest =>
      if missingOutputs fq then false else verifyLoop missingOutputs rest

/-- Embedding of `FastqSet.verify` (`qc/reporting.py` lines 358-386). -/
def FastqSet.verify (missingOutputs : String → Bool) (fs : FastqSet) : Bool :=
  verifyLoop missingOutputs fs.members

/-- The per-R1 body of `get_fastq_pairs` (`qc/reporting.py` lines
1011-1022): compute the name of the equivalent R2 file and pair it with
the R1 if such an R2 exists in the sample, otherwise build a one-element
set.  `r2equiv` abstracts the `sample.fastq_attrs`-based renaming
(`read_number := 2` plus re-joining directory and extension), which is
external Fastq-name parsing. -/
def mkPair (r2equiv : String → String) (fastqs_r2 : List String)
    (fqr1 : String) : FastqSet :=
  let fqr2 := r2equiv fqr1
  if fqr2 ∈ fastqs_r2 then { r1 := fqr1, r2 := some fqr2 }
  else { r1 := fqr1, r2 := none }

/-- Insertion step of the final `sorted(pairs, cmp by r1)` of
`get_fastq_pairs`. -/
def insertByR1 (fs : FastqSet) : List FastqSet → List FastqSet
  | [] => [fs]
  | g :: rest =>
      if fs.r1 ≤ g.r1 then fs :: g :: rest else g :: insertByR1 fs rest

/-- Sort a list of `FastqSet` by their R1 names, as the final statement
of `get_fastq_pairs` does. -/
def sortByR1 : List FastqSet → List FastqSet
  | [] => []
  | f :: rest => insertByR1 f (sortByR1 rest)

/-- Embedding of `get_fastq_pairs` (`qc/reporting.py` lines 997-1024):
one `FastqSet` per R1 Fastq, paired with its equivalent R2 when present,
sorted by R1 name. -/
def get_fastq_pairs (r2equiv : String → String)
    (fastqs_r1 fastqs_r2 : List String) : List FastqSet :=
  sortByR1 (fastqs_r1.map (mkPair r2equiv fastqs_r2))

/-- Spec-modelled scheduler (the `SimpleScheduler` module is not among
the provided sources; modelled from the spec's §4.1 contract).  A job
submitted to the scheduler: its name and the names of the jobs/groups it
must wait for. -/
structure SchedJob where
  name : String
  wait_for : List String
deriving DecidableEq, Repr

/-- Modelled from the spec: the scheduler's pool of pending, running and
finished jobs together with the configured concurrency cap
(`max_concurrent`, where `None` — and, per the spec, 0 — means
unbounded). -/
structure SchedState where
  max_concurrent : Option Nat
  pending : List SchedJob
  running : List SchedJob
  finished : List SchedJob
deriving DecidableEq, Repr

/-- Modelled from the spec: whether the concurrency cap allows one more
job to start when `n` jobs are currently running (`0`/`None` =
unbounded). -/
def capAllows : Option Nat → Nat → Bool
  | none, _ => true
  | some k, n => if k = 0 then true else decide (n < k)

/-- Modelled from the spec: a dependency name is satisfied when a
finished job carries it. -/
def depsDone (s : SchedState) (j : SchedJob) : Prop :=
  ∀ d ∈ j.wait_for, d ∈ s.finished.map (fun f => f.name)

/-- Modelled from the spec (§4.1): the scheduler's transition relation.
A pending job whose dependencies are all terminal may start when the
concurrency cap allows; a running job may finish.  Jobs with unmet
dependencies never occupy a running slot. -/
inductive SchedStep : SchedState → SchedState → Prop
  | start (s : SchedState) (p1 p2 : List SchedJob) (j : SchedJob)
      (hp : s.pending = p1 ++ j :: p2)
      (hd : depsDone s j)
      (hc : capAllows s.max_concurrent s.running.length = true) :
      SchedStep s { s with pending := p1 ++ p2, running := j :: s.running }
  | finish (s : SchedState) (r1 r2 : List SchedJob) (j : SchedJob)
      (hr : s.running = r1 ++ j :: r2) :
      SchedStep s { s with running := r1 ++ r2, finished := j :: s.finished }

/-- Reachability in the scheduler transition system. -/
def SchedReachable : SchedState → SchedState → Prop :=
  Relation.ReflTransGen SchedStep

lemma extractLoop_status (dirn : String) (log : List String) (st : VerifyResult) :
    (extractLoop dirn log st).verification_status =
      st.verification_status + (log.countP (fun l => l.startsWith dirn) : Int) := by
  induction log generalizing st with
  | nil => simp [extractLoop, List.countP_nil]
  | cons line rest ih =>
      by_cases h : line.startsWith dirn
      · simp only [extractLoop, h, if_pos, ih, List.countP_cons, h]
        push_cast
        ring
      · simp only [extractLoop, h, if_neg, Bool.false_eq_true, not_false_iff, ih,
          List.countP_cons]
        simp [h]

lemma extractLoop_missing (dirn : String) (log : List String) (st : VerifyResult) :
    (extractLoop dirn log st).fastqs_missing_qc =
      st.fastqs_missing_qc ++
        (log.filter (fun l => l.startsWith dirn)).map rstrip := by
  induction log generalizing st with
  | nil => simp [extractLoop]
  | cons line rest ih =>
      by_cases h : line.startsWith dirn
      · simp [extractLoop, h, ih]
      · simp [extractLoop, h, ih]

lemma extractFastqs_status (dirn : String) (exit_code : Int) (log : List String) :
    (extractFastqs dirn exit_code log).verification_status =
      exit_code + (log.countP (fun l => l.startsWith dirn) : Int) := by
  simp [extractFastqs, extractLoop_status]

lemma extractFastqs_missing (dirn : String) (exit_code : Int) (log : List String) :
    (extractFastqs dirn exit_code log).fastqs_missing_qc =
      (log.filter (fun l => l.startsWith dirn)).map rstrip := by
  simp [extractFastqs, extractLoop_missing]

lemma pairHasMissingQC_iff (missing pair : List String) :
    pairHasMissingQC missing pair = true ↔ ∃ fq ∈ pair, fq ∈ missing := by
  induction pair with
  | nil => simp [pairHasMissingQC]
  | cons fq rest ih =>
      by_cases h : missing.contains fq
      · simp only [pairHasMissingQC, h, if_pos, true_iff]
        exact ⟨fq, List.mem_cons_self fq rest, List.mem_of_elem_eq_true h⟩
      · simp only [pairHasMissingQC, h, if_neg, Bool.false_eq_true, not_false_iff, ih]
        constructor
        · rintro ⟨fq2, hmem, hmiss⟩
          exact ⟨fq2, List.mem_cons_of_mem _ hmem, hmiss⟩
        · rintro ⟨fq2, hmem, hmiss⟩
          rcases List.mem_cons.mp hmem with rfl | hmem2
          · exact absurd (List.elem_eq_true_of_mem hmiss) (by simpa using h)
          · exact ⟨fq2, hmem2, hmiss⟩

lemma mem_selectPairs (missing : List String) (pairs : List (List String))
    (p : List String) :
    p ∈ selectPairs missing pairs ↔
      p ∈ pairs ∧ pairHasMissingQC missing p = true := by
  induction pairs with
  | nil => simp [selectPairs]
  | cons q rest ih =>
      by_cases h : pairHasMissingQC missing q
      · simp only [selectPairs, h, if_pos, List.mem_cons, ih]
        constructor
        · rintro (rfl | ⟨hm, hp⟩)
          · exact ⟨Or.inl rfl, h⟩
          · exact ⟨Or.inr hm, hp⟩
        · rintro ⟨rfl | hm, hp⟩
          · exact Or.inl rfl
          · exact Or.inr ⟨hm, hp⟩
      · simp only [selectPairs, h, if_neg, Bool.false_eq_true, not_false_iff, ih,
          List.mem_cons]
        constructor
        · rintro ⟨hm, hp⟩
          exact ⟨Or.inr hm, hp⟩
        · rintro ⟨rfl | hm, hp⟩
          · exact absurd hp (by simpa using h)
          · exact ⟨hm, hp⟩

lemma addPairJobs_snd_name (projectName sampleName : String)
    (cmds : List String) (acc : Nat × JobGroup) :
    (addPairJobs projectName sampleName cmds acc).2.name = acc.2.name := by
  induction cmds generalizing acc with
  | nil => rfl
  | cons c rest ih => simpa [addPairJobs, List.foldl_cons] using ih _

lemma addPairJobs_snd_closed (projectName sampleName : String)
    (cmds : List String) (acc : Nat × JobGroup) :
    (addPairJobs projectName sampleName cmds acc).2.closed = acc.2.closed := by
  induction cmds generalizing acc with
  | nil => rfl
  | cons c rest ih => simpa [addPairJobs, List.foldl_cons] using ih _

lemma addPairJobs_jobs_length (projectName sampleName : String)
    (cmds : List String) (acc : Nat × JobGroup) :
    (addPairJobs projectName sampleName cmds acc).2.jobs.length =
      acc.2.jobs.length + cmds.length := by
  induction cmds generalizing acc with
  | nil => rfl
  | cons c rest ih =>
      simp only [addPairJobs, List.foldl_cons] at *
      rw [ih]
      simp
      omega

lemma setupSampleFold_some (projectName sampleName : String)
    (commands : List String → List String) (pairs : List (List String))
    (n : Nat) (g : JobGroup) :
    ∃ g2,
      (pairs.foldl (setupSampleStep projectName sampleName commands)
          (n, some g)).2 = some g2 ∧
        g2.name = g.name ∧ g2.closed = g.closed ∧
        g2.jobs.length =
          g.jobs.length + (pairs.map (fun p => (commands p).length)).sum := by
  induction pairs generalizing n g with
  | nil => exact ⟨g, rfl, rfl, rfl, by simp⟩
  | cons p rest ih =>
      simp only [List.foldl_cons, setupSampleStep]
      obtain ⟨g2, h1, h2, h3, h4⟩ :=
        ih (addPairJobs projectName sampleName (commands p) (n, g)).1
          (addPairJobs projectName sampleName (commands p) (n, g)).2
      refine ⟨g2, h1, ?_, ?_, ?_⟩
      · rw [h2, addPairJobs_snd_name]
      · rw [h3, addPairJobs_snd_closed]
      · rw [h4, addPairJobs_jobs_length]
        simp
        omega

lemma setupSample_eq_none_iff (projectName : String)
    (commands : List String → List String) (missing : List String)
    (sampleName : String) (samplePairs : List (List String)) :
    setupSample projectName commands missing sampleName samplePairs = none ↔
      selectPairs missing samplePairs = [] := by
  unfold setupSample
  cases hp : selectPairs missing samplePairs with
  | nil => simp
  | cons p rest =>
      simp only [List.foldl_cons, setupSampleStep]
      obtain ⟨g2, h1, -, -, -⟩ :=
        setupSampleFold_some projectName sampleName commands rest
          (addPairJobs projectName sampleName (commands p)
            (0, { name := projectName ++ "." ++ sampleName,
                  jobs := [], closed := false })).1
          (addPairJobs projectName sampleName (commands p)
            (0, { name := projectName ++ "." ++ sampleName,
                  jobs := [], closed := false })).2
      simp [h1]

lemma setupSample_eq_some (projectName : String)
    (commands : List String → List String) (missing : List String)
    (sampleName : String) (samplePairs : List (List String)) (g : JobGroup)
    (h : setupSample projectName commands missing sampleName samplePairs = some g) :
    g.name = projectName ++ "." ++ sampleName ∧ g.closed = true ∧
      g.jobs.length =
        ((selectPairs missing samplePairs).map
          (fun p => (commands p).length)).sum := by
  unfold setupSample at h
  cases hp : selectPairs missing samplePairs with
  | nil => rw [hp] at h; simp at h
  | cons p rest =>
      rw [hp] at h
      simp only [List.foldl_cons, setupSampleStep] at h
      obtain ⟨g2, h1, h2, h3, h4⟩ :=
        setupSampleFold_some projectName sampleName commands rest
          (addPairJobs projectName sampleName (commands p)
            (0, { name := projectName ++ "." ++ sampleName,
                  jobs := [], closed := false })).1
          (addPairJobs projectName sampleName (commands p)
            (0, { name := projectName ++ "." ++ sampleName,
                  jobs := [], closed := false })).2
      rw [h1] at h
      simp only [Option.some.injEq] at h
      subst h
      rw [addPairJobs_snd_name] at h2
      rw [addPairJobs_jobs_length] at h4
      refine ⟨by simpa using h2, rfl, ?_⟩
      simp only [List.map_cons, List.sum_cons]
      simp at h4
      omega

lemma setup_qc_foldl_groups (projectName : String)
    (commands : List String → List String) (missing : List String)
    (samples : List Sample) (acc : List JobGroup) :
    samples.foldl
      (fun acc s =>
        match setupSample projectName commands missing s.name s.fastqPairs with
        | some g => acc ++ [g]
        | none => acc)
      acc =
    acc ++ samples.filterMap
      (fun s => setupSample projectName commands missing s.name s.fastqPairs) := by
  induction samples generalizing acc with
  | nil => simp
  | cons s rest ih =>
      simp only [List.foldl_cons]
      cases h : setupSample projectName commands missing s.name s.fastqPairs with
      | none => simp [h, ih]
      | some g => simp [h, ih]

lemma setup_qc_groupNames (projectName : String)
    (commands : List String → List String) (missing : List String)
    (samples : List Sample) :
    (samples.filterMap
        (fun s => setupSample projectName commands missing s.name s.fastqPairs)).map
        (fun g => g.name) =
      (samples.filter
          (fun s => !(selectPairs missing s.fastqPairs).isEmpty)).map
        (fun s => projectName ++ "." ++ s.name) := by
  induction samples with
  | nil => simp
  | cons s rest ih =>
      cases h : setupSample projectName commands missing s.name s.fastqPairs with
      | none =>
          have hsel : selectPairs missing s.fastqPairs = [] :=
            (setupSample_eq_none_iff projectName commands missing
              s.name s.fastqPairs).mp h
          simp [List.filterMap_cons, h, List.filter_cons, hsel, ih]
      | some g =>
          have hsel : ¬ selectPairs missing s.fastqPairs = [] := by
            intro hempty
            rw [(setupSample_eq_none_iff projectName commands missing
              s.name s.fastqPairs).mpr hempty] at h
            exact Option.noConfusion h
          have hname := (setupSample_eq_some projectName commands missing
            s.name s.fastqPairs g h).1
          have hne : (selectPairs missing s.fastqPairs).isEmpty = false := by
            cases hsel2 : selectPairs missing s.fastqPairs with
            | nil => exact absurd hsel2 hsel
            | cons a b => rfl
          simp [List.filterMap_cons, h, List.filter_cons, hne, ih, hname]

lemma setup_qc_groups_closed (projectName : String)
    (commands : List String → List String) (missing : List String)
    (samples : List Sample) (g : JobGroup)
    (h : g ∈ samples.filterMap
        (fun s => setupSample projectName commands missing s.name s.fastqPairs)) :
    g.closed = true := by
  obtain ⟨s, -, hs⟩ := List.mem_filterMap.mp h
  exact (setupSample_eq_some projectName commands missing
    s.name s.fastqPairs g hs).2.1

lemma mem_insertByR1 (fs x : FastqSet) (l : List FastqSet) :
    x ∈ insertByR1 fs l ↔ x = fs ∨ x ∈ l := by
  induction l with
  | nil => simp [insertByR1]
  | cons g rest ih =>
      by_cases h : fs.r1 ≤ g.r1
      · simp [insertByR1, h]
      · simp only [insertByR1, h, if_neg, not_false_iff, List.mem_cons, ih]
        tauto

lemma mem_sortByR1 (x : FastqSet) (l : List FastqSet) :
    x ∈ sortByR1 l ↔ x ∈ l := by
  induction l with
  | nil => simp [sortByR1]
  | cons f rest ih =>
      simp only [sortByR1, mem_insertByR1, List.mem_cons, ih]

lemma SchedStep.max_concurrent_eq {s s2 : SchedState} (h : SchedStep s s2) :
    s2.max_concurrent = s.max_concurrent := by
  cases h <;> rfl

lemma SchedStep.running_le {k : Nat} {s s2 : SchedState} (h : SchedStep s s2)
    (hmc : s.max_concurrent = some k) (hk : 0 < k)
    (hlen : s.running.length ≤ k) : s2.running.length ≤ k := by
  cases h with
  | start p1 p2 j hp hd hc =>
      simp only [List.length_cons]
      rw [hmc] at hc
      simp only [capAllows] at hc
      have hne : ¬ k = 0 := by omega
      rw [if_neg hne] at hc
      have := of_decide_eq_true hc
      omega
  | finish r1 r2 j hr =>
      have hlen2 : s.running.length = r1.length + r2.length + 1 := by
        rw [hr]; simp; omega
      simp only [List.length_append]
      omega

lemma schedReachable_invariant (k : Nat) (s0 s : SchedState) (hk : 0 < k)
    (hmc : s0.max_concurrent = some k) (h0 : s0.running.length ≤ k)
    (hr : SchedReachable s0 s) :
    s.running.length ≤ k ∧ s.max_concurrent = some k := by
  induction hr with
  | refl => exact ⟨h0, hmc⟩
  | tail hstep hlast ih =>
      obtain ⟨ihlen, ihmc⟩ := ih
      exact ⟨hlast.running_le ihmc hk ihlen,
        by rw [hlast.max_concurrent_eq, ihmc]⟩

lemma schedStep_start_gated {s s2 : SchedState} {j : SchedJob}
    (h : SchedStep s s2) (hj : j ∈ s2.running) (hnj : j ∉ s.running) :
    depsDone s j := by
  cases h with
  | start p1 p2 j2 hp hd hc =>
      simp only [List.mem_cons] at hj
      rcases hj with rfl | hmem
      · exact hd
      · exact absurd hmem hnj
  | finish r1 r2 j2 hr =>
      exfalso
      apply hnj
      rw [hr]
      simp only [List.mem_append, List.mem_cons]
      simp only [List.mem_append] at hj
      tauto

lemma ProjState.verify_eq_true_iff (st : ProjState) :
    st.verify = true ↔ st.verification_status = some 0 := by
  cases h : st.verification_status with
  | none => simp [ProjState.verify, h]
  | some c => simp [ProjState.verify, h]

lemma runProject_flag_false_iff (env : ProjectEnv) :
    (runProject env).2 = false ↔
      ((runProject env).1.verification_status = some 0 ∧
       (runProject env).1.reporting_status = some 0) := by
  by_cases hv : (runProjectPhase2 env).verify
  · have hvs := (ProjState.verify_eq_true_iff _).mp hv
    simp only [runProject, hv, if_pos]
    simp [hvs, bne]
  · have hvs : ¬ (runProjectPhase2 env).verification_status = some 0 := by
      intro h
      exact hv ((ProjState.verify_eq_true_iff _).mpr h)
    simp only [runProject, hv, if_neg, Bool.false_eq_true, not_false_iff]
    simp [hvs]

/-- C1: `RunQC.run()` returns 0 iff, after the three phases, every
registered project has `verification_status == 0` and
`reporting_status == 0`; in every other case it returns 1.  A failing
project only sets its own failure flag (the embedding processes each
project by a function of its own environment alone), so one project's
verification or reporting failure neither raises out of `run()` — the
embedding is a total function — nor prevents a sibling from being
processed and reported. -/
theorem runqc_run_zero_iff (projects : List ProjectEnv) :
    RunQC_run projects = 0 ↔
      ∀ env ∈ projects,
        (runProject env).1.verification_status = some 0 ∧
          (runProject env).1.reporting_status = some 0 := by
  unfold RunQC_run
  by_cases h : (projects.map runProject).any (fun r => r.2)
  · simp only [h, if_pos]
    constructor
    · intro h10
      exact absurd h10 (by norm_num)
    · intro hall
      exfalso
      obtain ⟨r, hr, hflag⟩ := List.any_eq_true.mp h
      obtain ⟨env, henv, rfl⟩ := List.mem_map.mp hr
      have := (runProject_flag_false_iff env).mpr (hall env henv)
      rw [this] at hflag
      exact Bool.noConfusion hflag
  · simp only [h, if_neg, Bool.false_eq_true, not_false_iff]
    constructor
    · intro _ env henv
      apply (runProject_flag_false_iff env).mp
      by_contra hflag
      exact h (List.any_eq_true.mpr
        ⟨runProject env, List.mem_map_of_mem runProject henv,
          by simpa using hflag⟩)
    · intro _
      trivial

lemma extract_zero_iff_aux (dirn : String)
    (exit_code : Int) (log : List String) (h : 0 ≤ exit_code) :
    ((extractFastqs dirn exit_code log).verification_status = 0 →
      (extractFastqs dirn exit_code log).fastqs_missing_qc = []) ∧
    (exit_code = 0 →
      ((extractFastqs dirn exit_code log).verification_status = 0 ↔
        (extractFastqs dirn exit_code log).fastqs_missing_qc = [])) := by
  rw [extractFastqs_status, extractFastqs_missing]
  have hcnt : log.countP (fun l => l.startsWith dirn) =
      (log.filter (fun l => l.startsWith dirn)).length :=
    List.countP_eq_length_filter _ _
  constructor
  · intro h0
    have : (log.filter (fun l => l.startsWith dirn)).length = 0 := by omega
    rw [List.length_eq_zero] at this
    rw [this]
    rfl
  · intro hz
    subst hz
    rw [List.map_eq_nil_iff]
    constructor
    · intro h0
      have : (log.filter (fun l => l.startsWith dirn)).length = 0 := by omega
      rwa [List.length_eq_zero] at this
    · intro hnil
      rw [hcnt, hnil]
      simp

/-- C2: for a `ProjectQC` whose verification callback has run on a
completed job with non-negative exit code, `verification_status == 0`
implies `fastqs_missing_qc` is empty; and when the job exited with code
0, `verification_status == 0` holds iff `fastqs_missing_qc` is empty. -/
theorem verification_status_zero_missing_empty (dirn : String)
    (exit_code : Int) (log : List String) (st : ProjState)
    (h : 0 ≤ exit_code) :
    ((applyExtract dirn exit_code log st).verification_status = some 0 →
      (applyExtract dirn exit_code log st).fastqs_missing_qc = some []) ∧
    (exit_code = 0 →
      ((applyExtract dirn exit_code log st).verification_status = some 0 ↔
        (applyExtract dirn exit_code log st).fastqs_missing_qc = some [])) := by
  obtain ⟨h1, h2⟩ := extract_zero_iff_aux dirn exit_code log h
  simp only [applyExtract, Option.some.injEq]
  exact ⟨fun hs => h1 hs, fun hz => h2 hz⟩

/-- Witness for C2 at a concrete input: a clean exit with one
missing-Fastq line.  The hypothesis `0 ≤ 0` is discharged by `decide`. -/
theorem verification_status_zero_missing_empty_witness :
    ((applyExtract "/data/P" 0 ["/data/P/a.fq"] initProjState).verification_status
        = some 0 →
      (applyExtract "/data/P" 0 ["/data/P/a.fq"] initProjState).fastqs_missing_qc
        = some []) ∧
    ((0 : Int) = 0 →
      ((applyExtract "/data/P" 0 ["/data/P/a.fq"] initProjState).verification_status
          = some 0 ↔
        (applyExtract "/data/P" 0 ["/data/P/a.fq"] initProjState).fastqs_missing_qc
          = some [])) :=
  verification_status_zero_missing_empty "/data/P" 0 ["/data/P/a.fq"]
    initProjState (by decide)

/-- C3: after `_extract_fastqs` runs, `verification_status` is exactly
the job's exit code plus the number of log lines beginning with the
project directory — exit code and missing-output count are conflated
into one integer. -/
theorem verification_status_conflated (dirn : String) (exit_code : Int)
    (log : List String) :
    (extractFastqs dirn exit_code log).verification_status =
      exit_code + (log.countP (fun l => l.startsWith dirn) : Int) :=
  extractFastqs_status dirn exit_code log

/-- C4: after `_extract_fastqs`, `fastqs_missing_qc` is exactly the log
lines starting with the project directory, in file order, with trailing
whitespace stripped; lines not starting with that path contribute
nothing. -/
theorem fastqs_missing_qc_exact (dirn : String) (exit_code : Int)
    (log : List String) :
    (extractFastqs dirn exit_code log).fastqs_missing_qc =
      (log.filter (fun l => l.startsWith dirn)).map rstrip :=
  extractFastqs_missing dirn exit_code log

/-- C5: in `setup_qc`, a Fastq pair is selected for (re)processing iff it
occurs among the sample's pairs and at least one of its Fastqs is a
member of `fastqs_missing_qc`; a pair with no Fastq in that list is
never selected. -/
theorem setup_qc_pair_selection (missing : List String)
    (pairs : List (List String)) (p : List String) :
    p ∈ selectPairs missing pairs ↔
      p ∈ pairs ∧ ∃ fq ∈ p, fq ∈ missing := by
  rw [mem_selectPairs, pairHasMissingQC_iff]

/-- C6: all QC commands for one sample's selected pairs go into a single
`JobGroup` named `<project>.<sample>`, closed after the last command was
added (one job per command of each selected pair); a sample with zero
selected pairs creates no group at all. -/
theorem setup_qc_sample_group (projectName : String)
    (commands : List String → List String) (missing : List String)
    (sampleName : String) (samplePairs : List (List String)) :
    (setupSample projectName commands missing sampleName samplePairs = none ↔
      selectPairs missing samplePairs = []) ∧
    ∀ g, setupSample projectName commands missing sampleName samplePairs =
        some g →
      g.name = projectName ++ "." ++ sampleName ∧ g.closed = true ∧
        g.jobs.length =
          ((selectPairs missing samplePairs).map
            (fun p => (commands p).length)).sum := by
  exact ⟨setupSample_eq_none_iff projectName commands missing sampleName
      samplePairs,
    fun g h => setupSample_eq_some projectName commands missing sampleName
      samplePairs g h⟩

/-- Witness for C6 at a concrete input: one selected pair yielding two
commands produces a single closed group `P.S1` with two jobs. -/
theorem setup_qc_sample_group_witness :
    ({ name := "P.S1",
       jobs := ["illumina_qc.P.S1#001", "illumina_qc.P.S1#002"],
       closed := true } : JobGroup).name = "P" ++ "." ++ "S1" ∧
    ({ name := "P.S1",
       jobs := ["illumina_qc.P.S1#001", "illumina_qc.P.S1#002"],
       closed := true } : JobGroup).closed = true ∧
    ({ name := "P.S1",
       jobs := ["illumina_qc.P.S1#001", "illumina_qc.P.S1#002"],
       closed := true } : JobGroup).jobs.length =
      ((selectPairs ["/d/P/a_R1.fq"]
          [["/d/P/a_R1.fq", "/d/P/a_R2.fq"], ["/d/P/b_R1.fq"]]).map
        (fun p => (p.map (fun _ => "illumina_qc")).length)).sum :=
  (setup_qc_sample_group "P" (fun p => p.map (fun _ => "illumina_qc"))
      ["/d/P/a_R1.fq"] "S1"
      [["/d/P/a_R1.fq", "/d/P/a_R2.fq"], ["/d/P/b_R1.fq"]]).2
    { name := "P.S1",
      jobs := ["illumina_qc.P.S1#001", "illumina_qc.P.S1#002"],
      closed := true }
    (by rfl)

/-- C7: whenever `setup_qc` processes at least one matched sample, it
submits exactly one re-verification `check_qc` job whose `wait_for` list
is exactly the names of the job groups it created (one per sample with a
selected pair, all closed); and in the scheduler a job can only enter
the running state once every dependency in its `wait_for` list is
terminal, so the re-verification job runs only after every QC job of the
project has finished. -/
theorem setup_qc_reverify_waits_for_groups (projectName : String)
    (commands : List String → List String) (missing : List String)
    (samples : List Sample) (h : samples ≠ []) :
    ((setup_qc projectName commands missing samples).verifyJob =
      some { name := "verify_qc." ++ projectName,
             wait_for :=
               (samples.filter
                   (fun s => !(selectPairs missing s.fastqPairs).isEmpty)).map
                 (fun s => projectName ++ "." ++ s.name) }) ∧
    ((setup_qc projectName commands missing samples).groups.map
        (fun g => g.name) =
      (samples.filter
          (fun s => !(selectPairs missing s.fastqPairs).isEmpty)).map
        (fun s => projectName ++ "." ++ s.name)) ∧
    (∀ g ∈ (setup_qc projectName commands missing samples).groups,
      g.closed = true) ∧
    (∀ u v : SchedState, ∀ j : SchedJob,
      SchedStep u v → j ∈ v.running → j ∉ u.running → depsDone u j) := by
  have hise : samples.isEmpty = false := by
    cases samples with
    | nil => exact absurd rfl h
    | cons a b => rfl
  have hgroups : (setup_qc projectName commands missing samples).groups =
      samples.filterMap
        (fun s => setupSample projectName commands missing s.name s.fastqPairs) := by
    simp only [setup_qc, hise, Bool.false_eq_true, if_neg, not_false_iff]
    rw [setup_qc_foldl_groups]
    simp
  have hnames := setup_qc_groupNames projectName commands missing samples
  refine ⟨?_, ?_, ?_, ?_⟩
  · simp only [setup_qc, hise, Bool.false_eq_true, if_neg, not_false_iff]
    rw [setup_qc_foldl_groups]
    simp only [List.nil_append]
    rw [hnames]
  · rw [hgroups, hnames]
  · intro g hg
    rw [hgroups] at hg
    exact setup_qc_groups_closed projectName commands missing samples g hg
  · intro u v j hstep hjv hju
    exact schedStep_start_gated hstep hjv hju

/-- Witness for C7 at a concrete input: two samples, one with a selected
pair; the re-verification job waits for exactly the group of that
sample. -/
theorem setup_qc_reverify_waits_for_groups_witness :
    (setup_qc "P" (fun p => p.map (fun _ => "illumina_qc")) ["/d/P/a_R1.fq"]
        [{ name := "S1", fastqPairs := [["/d/P/a_R1.fq", "/d/P/a_R2.fq"]] },
         { name := "S2", fastqPairs := [["/d/P/c_R1.fq"]] }]).verifyJob =
      some { name := "verify_qc." ++ "P",
             wait_for :=
               (([{ name := "S1",
                    fastqPairs := [["/d/P/a_R1.fq", "/d/P/a_R2.fq"]] },
                  { name := "S2",
                    fastqPairs := [["/d/P/c_R1.fq"]] }] : List Sample).filter
                   (fun s =>
                     !(selectPairs ["/d/P/a_R1.fq"] s.fastqPairs).isEmpty)).map
                 (fun s => "P" ++ "." ++ s.name) } :=
  (setup_qc_reverify_waits_for_groups "P"
      (fun p => p.map (fun _ => "illumina_qc")) ["/d/P/a_R1.fq"]
      [{ name := "S1", fastqPairs := [["/d/P/a_R1.fq", "/d/P/a_R2.fq"]] },
       { name := "S2", fastqPairs := [["/d/P/c_R1.fq"]] }]
      (List.cons_ne_nil _ _)).1

/-- C8: a Fastq whose equivalent R2 partner is absent is represented as
a one-element `FastqSet` (`r2 = None`); such a set flows through QC
verification and setup without error (all embedded operations are total
functions): verification applies the same missing-output check to the
single member, the set still appears among the sample's pairs, and the
`setup_qc` selection test treats the singleton like a full pair. -/
theorem single_fastq_set_safe (r2equiv : String → String)
    (fastqs_r1 fastqs_r2 : List String) (fq : String)
    (missingOutputs : String → Bool) (missing : List String)
    (h : r2equiv fq ∉ fastqs_r2) :
    (mkPair r2equiv fastqs_r2 fq).r2 = none ∧
    (mkPair r2equiv fastqs_r2 fq).fastqs = [fq] ∧
    FastqSet.verify missingOutputs (mkPair r2equiv fastqs_r2 fq) =
      !(missingOutputs fq) ∧
    (fq ∈ fastqs_r1 →
      mkPair r2equiv fastqs_r2 fq ∈
        get_fastq_pairs r2equiv fastqs_r1 fastqs_r2) ∧
    pairHasMissingQC missing (mkPair r2equiv fastqs_r2 fq).fastqs =
      missing.contains fq := by
  have hmk : mkPair r2equiv fastqs_r2 fq = { r1 := fq, r2 := none } := by
    simp [mkPair, h]
  refine ⟨by rw [hmk], by rw [hmk]; rfl, ?_, ?_, ?_⟩
  · rw [hmk]
    cases hmo : missingOutputs fq <;>
      simp [FastqSet.verify, FastqSet.members, verifyLoop, hmo]
  · intro hr1
    rw [get_fastq_pairs, mem_sortByR1]
    exact List.mem_map_of_mem (mkPair r2equiv fastqs_r2) hr1
  · rw [hmk]
    show (if missing.contains fq then true else false) = missing.contains fq
    cases hc : missing.contains fq <;> simp

/-- Witness for C8 at a concrete input: R1 Fastq `"a"` with no matching
R2 in an empty R2 list. -/
theorem single_fastq_set_safe_witness :
    (mkPair (fun s => s ++ "_R2") [] "a").r2 = none ∧
    (mkPair (fun s => s ++ "_R2") [] "a").fastqs = ["a"] ∧
    FastqSet.verify (fun _ => false) (mkPair (fun s => s ++ "_R2") [] "a") =
      !((fun (_ : String) => false) "a") ∧
    ("a" ∈ ["a"] →
      mkPair (fun s => s ++ "_R2") [] "a" ∈
        get_fastq_pairs (fun s => s ++ "_R2") ["a"] []) ∧
    pairHasMissingQC [] (mkPair (fun s => s ++ "_R2") [] "a").fastqs =
      List.contains [] "a" :=
  single_fastq_set_safe (fun s => s ++ "_R2") ["a"] [] "a" (fun _ => false)
    [] (by simp)

/-- C9 (spec-modelled: the `SimpleScheduler` source is not among the
provided files): in every state reachable from a start state with no
running jobs, the number of simultaneously running jobs never exceeds a
configured cap `k > 0`; and a cap of `None` or 0 imposes no bound. -/
theorem scheduler_concurrency_cap (k : Nat) (s0 s : SchedState)
    (hk : 0 < k) (hmc : s0.max_concurrent = some k)
    (h0 : s0.running.length = 0) (hr : SchedReachable s0 s) :
    s.running.length ≤ k ∧
    (∀ n, capAllows none n = true) ∧
    (∀ n, capAllows (some 0) n = true) := by
  refine ⟨(schedReachable_invariant k s0 s hk hmc (by omega) hr).1, ?_, ?_⟩
  · intro n
    rfl
  · intro n
    simp [capAllows]

/-- Witness for C9 at a concrete input: cap 1, two pending independent
jobs, one start step taken. -/
theorem scheduler_concurrency_cap_witness :
    ({ max_concurrent := some 1,
       pending := [{ name := "b", wait_for := [] }],
       running := [{ name := "a", wait_for := [] }],
       finished := [] } : SchedState).running.length ≤ 1 ∧
    (∀ n, capAllows none n = true) ∧
    (∀ n, capAllows (some 0) n = true) :=
  scheduler_concurrency_cap 1
    { max_concurrent := some 1,
      pending := [{ name := "a", wait_for := [] },
                  { name := "b", wait_for := [] }],
      running := [], finished := [] }
    { max_concurrent := some 1,
      pending := [{ name := "b", wait_for := [] }],
      running := [{ name := "a", wait_for := [] }],
      finished := [] }
    (by decide) rfl rfl
    (Relation.ReflTransGen.single
      (SchedStep.start _ [] [{ name := "b", wait_for := [] }]
        { name := "a", wait_for := [] } rfl
        (fun d hd => absurd hd (List.not_mem_nil d)) rfl))

/-- C10: `ProjectQC.check_qc` resets `verification_status` and
`fastqs_missing_qc` to `None` before submitting the verification job, so
`verify()` returns `False` from that moment until the completion
callback has run; and the callback's result is independent of any
previously stored verification result, which is therefore discarded, not
reused. -/
theorem check_qc_resets_verification (st : ProjState) :
    (checkQcReset st).verification_status = none ∧
    (checkQcReset st).fastqs_missing_qc = none ∧
    (checkQcReset st).verify = false ∧
    ∀ (dirn : String) (exit_code : Int) (log : List String)
      (st2 : ProjState),
      (applyCheckQC dirn exit_code log st).verification_status =
        (applyCheckQC dirn exit_code log st2).verification_status ∧
      (applyCheckQC dirn exit_code log st).fastqs_missing_qc =
        (applyCheckQC dirn exit_code log st2).fastqs_missing_qc :=
  ⟨rfl, rfl, rfl, fun _ _ _ _ => ⟨rfl, rfl⟩⟩
